import Mathlib

/-!
Verification of the ragged-batch pooling / hashing engine
(`thinc/neural/_custom_kernels.py`).

The Python file is a host-side wrapper around two CUDA kernel-source
documents (`_custom_kernels.cu`, `_murmur3.cu`).  The wrapper logic —
output-buffer allocation, launch sizing (`num_blocks`), the in-place
`out /= lengths` division, the module-load entry-point lookups and the
no-backend fallback — is embedded faithfully from the Python source.
The device kernels themselves are not part of the repository snapshot,
so their value-level semantics are modelled from the specification
(definitions whose doc comment starts with `Modelled from the spec:`).

Scalars are modelled as rationals (exact arithmetic; the claims under
study do not depend on floating-point rounding).  Buffer identity and
in-place mutation are modelled with an explicit heap: a buffer
reference is an index into a list of buffers, mirroring Python object
identity for the caller-supplied `out` arrays.
-/

namespace Thinc

/-- A two-dimensional array: a row list together with its width
(number of columns), mirroring a `(rows, width)` ndarray shape.  The
width is carried explicitly so that zero-row arrays still have a
well-defined second shape component. -/
structure Arr2 where
  rows : List (List ℚ)
  width : Nat
deriving DecidableEq

/-- Well-formedness of an `Arr2`: every row has exactly `width` entries. -/
def Arr2.wf (A : Arr2) : Prop := ∀ r ∈ A.rows, r.length = A.width

instance (A : Arr2) : Decidable A.wf := by
  unfold Arr2.wf; infer_instance

/-- A zero-initialised `(B, O)` float buffer, as allocated by
`cupy.zeros((B, O), dtype="f")` in the Python wrappers. -/
def Arr2.zeros (B O : Nat) : Arr2 := ⟨List.replicate B (List.replicate O 0), O⟩

/-- Total of all entries of a row list. -/
def matSum (m : List (List ℚ)) : ℚ := (m.map List.sum).sum

/-- The Python exceptions the wrapper code can raise. -/
inductive PyErr where
  | nameError (n : String)
  | keyError (k : String)
  | attributeError (a : String)
  | valueError (msg : String)
deriving DecidableEq

deriving instance DecidableEq for Except

/-- In-place numpy/cupy broadcast division `A /= d` of a 2-D array of
shape `(B, O)` by a 1-D array `d` of length `L` (source lines 66 and
101: `out /= lengths`).  Broadcasting aligns trailing axes, so the
statement is valid exactly when `L = O` (each column `j` is divided by
`d[j]`) or `L = 1` (scalar division); any other `L` raises a
`ValueError`.  In particular the divisor is NOT applied per-row. -/
def broadcastDiv (A : Arr2) (d : List ℚ) : Except PyErr Arr2 :=
  if d.length = A.width then
    Except.ok ⟨A.rows.map (fun row => List.zipWith (· / ·) row d), A.width⟩
  else if d.length = 1 then
    Except.ok ⟨A.rows.map (fun row => row.map (· / d.headI)), A.width⟩
  else
    Except.error (PyErr.valueError "operands could not be broadcast together")

/-! ### Ragged layout helpers -/

/-- Element-wise sum of two rows. -/
def vadd (a b : List ℚ) : List ℚ := List.zipWith (· + ·) a b

/-- Split a flat row list into consecutive chunks whose sizes are given
by `lengths` — the prefix-sum row-ownership rule of the ragged layout:
item `i` owns rows `[prefix(i), prefix(i) + lengths[i])`. -/
def chunkBy : List Nat → List (List ℚ) → List (List (List ℚ))
  | [], _ => []
  | n :: ns, rows => rows.take n :: chunkBy ns (rows.drop n)

/-- Absolute start offset of each item: the prefix sums of `lengths`. -/
def startsOf (lengths : List Nat) : List Nat :=
  List.scanl (fun a n => a + n) 0 lengths

/-! ### Device-kernel semantics (modelled from the spec) -/

/-- Modelled from the spec: the `sum_pool` kernel of
`_custom_kernels.cu` (document not under src/).  `PooledBatch[i]` is
the element-wise sum of the rows owned by item `i` (spec section 4.4);
the dispatch covers every item regardless of `numBlocks`, since the
runtime always dispatches at least the first group (spec section 9). -/
def sum_pool_kernelFn (X : Arr2) (lengths : List Nat) : Arr2 :=
  ⟨(chunkBy lengths X.rows).map
      (fun item => item.foldl vadd (List.replicate X.width 0)),
   X.width⟩

/-- Column `j` of a row list (missing entries read as 0). -/
def colOf (rows : List (List ℚ)) (j : Nat) : List ℚ :=
  rows.map (fun r => r.getD j 0)

/-- First-occurrence running maximum: scan the remaining values,
replacing the current best only on a strict increase, so ties keep the
lowest offset. -/
def bestOf : List ℚ → Nat → (ℚ × Nat) → (ℚ × Nat)
  | [], _, best => best
  | v :: vs, idx, best => bestOf vs (idx + 1) (if best.1 < v then (v, idx) else best)

/-- Modelled from the spec: the `max_pool` kernel of
`_custom_kernels.cu` (document not under src/).  For each item `i` and
feature `j` it returns the column-wise maximum over the owned rows,
ties broken by lowest row offset, together with that row's absolute
offset in the flat batch (spec section 4.4). -/
def max_pool_kernelFn (X : Arr2) (lengths : List Nat) : Arr2 × List (List Nat) :=
  let per := List.zipWith
    (fun item start =>
      (List.range X.width).map (fun j =>
        match colOf item j with
        | [] => ((0 : ℚ), start)
        | v :: vs => bestOf vs (start + 1) (v, start)))
    (chunkBy lengths X.rows) (startsOf lengths)
  (⟨per.map (fun row => row.map Prod.fst), X.width⟩,
   per.map (fun row => row.map Prod.snd))

/-- Modelled from the spec: the `backprop_sum_pool` kernel of
`_custom_kernels.cu` (document not under src/).  Every row owned by
item `i` receives `dPooled[i]` unchanged (spec section 4.4). -/
def backprop_sum_pool_kernelFn (d_sum : Arr2) (lengths : List Nat) : Arr2 :=
  ⟨(List.zipWith (fun row n => List.replicate n row) d_sum.rows lengths).flatten,
   d_sum.width⟩

/-- Modelled from the spec: the `backprop_max_pool` kernel of
`_custom_kernels.cu` (document not under src/).  For each `(i, j)`,
`dMaxes[i][j]` is added at row `which[i][j]`, feature `j`; every other
entry of the `(T, O)` output is zero (spec section 4.4). -/
def backprop_max_pool_kernelFn (d_maxes : Arr2) (which : List (List Nat))
    (lengths : List Nat) : Arr2 :=
  ⟨(List.range lengths.sum).map (fun r =>
      (List.range d_maxes.width).map (fun j =>
        (List.zipWith
          (fun drow wrow => if wrow.getD j 0 = r then drow.getD j 0 else 0)
          d_maxes.rows which).sum)),
   d_maxes.width⟩

/-! ### Hash kernel (modelled from the spec) -/

/-- A 32-bit finalisation mix (xor-shift / multiply rounds, the
murmur3 finaliser constants), exact on `Nat` with explicit reduction
modulo `2 ^ 32`. -/
def fmix32 (h : Nat) : Nat :=
  let h1 := (h ^^^ (h >>> 16)) % (2 ^ 32)
  let h2 := (h1 * 0x85ebca6b) % (2 ^ 32)
  let h3 := (h2 ^^^ (h2 >>> 13)) % (2 ^ 32)
  let h4 := (h3 * 0xc2b2ae35) % (2 ^ 32)
  (h4 ^^^ (h4 >>> 16)) % (2 ^ 32)

/-- Modelled from the spec: the per-key hash of the `hash_data` kernel
in `_murmur3.cu` (document not under src/).  A deterministic, seeded
hash of one fixed-width (64-bit) integer key into four unsigned 32-bit
words (spec sections 4.5 and 3). -/
def mmh (key seed : Nat) : List Nat :=
  (List.range 4).map (fun i =>
    fmix32 ((fmix32 (((key % (2 ^ 64)) >>> 32) + seed + i) ^^^ (key % (2 ^ 32))) % (2 ^ 32)))

/-- Modelled from the spec: the batched `hash_data` kernel computes,
for every key index `t < T`, the four 32-bit words `mmh(keys[t], seed)`
— deterministic and independent of launch shape (spec section 4.5). -/
def hash_data_kernelFn (ids : List Nat) (seed : Nat) : List (List Nat) :=
  ids.map (fun k => mmh k seed)

/-! ### Heap model for buffer identity -/

/-- A device buffer: either a float matrix (with shape) or an integer
matrix (argmax indices). -/
inductive Buf where
  | fmat (a : Arr2)
  | nmat (m : List (List Nat))
deriving DecidableEq

/-- The heap of float/int buffers; a buffer reference is an index. -/
abbrev Heap := List Buf

/-- The heap of `uint32` hash-output buffers. -/
abbrev HeapU := List (List (List Nat))

/-- A launch shape `(num_blocks,), (threads_per_block,)` as passed to a
cupy `RawKernel`. -/
structure Launch where
  numBlocks : Nat
  threadsPerBlock : Nat
deriving DecidableEq

/-! ### The public operations (embedded from the Python wrappers) -/

/-- Embedded from `sum_pool` (source lines 47-55): allocate a
zero-initialised `(B, O)` output when none is supplied, compute
`num_blocks = min(1, B // threads_per_block)`, launch the sum-pool
kernel into the output buffer, and return that buffer. -/
def sum_pool (h : Heap) (X : Arr2) (lengths : List Nat) (out : Option Nat)
    (tpb : Nat) : Launch × Heap × Nat :=
  let p := match out with
    | some r => (h, r)
    | none => (h ++ [Buf.fmat (Arr2.zeros lengths.length X.width)], h.length)
  (⟨min 1 (lengths.length / tpb), tpb⟩,
   p.1.set p.2 (Buf.fmat (sum_pool_kernelFn X lengths)), p.2)

/-- Embedded from `mean_pool` (source lines 58-67): identical to
`sum_pool` (it launches the sum-pool kernel with the same
`min(1, B // threads_per_block)` sizing), followed by the in-place
statement `out /= lengths`, which numpy-broadcasts `lengths` along the
trailing axis of the `(B, O)` buffer.  The division may raise, in which
case the buffer keeps the kernel-written sums. -/
def mean_pool (h : Heap) (X : Arr2) (lengths : List Nat) (out : Option Nat)
    (tpb : Nat) : Launch × Heap × Except PyErr Nat :=
  let p := match out with
    | some r => (h, r)
    | none => (h ++ [Buf.fmat (Arr2.zeros lengths.length X.width)], h.length)
  let pooled := sum_pool_kernelFn X lengths
  let h1 := p.1.set p.2 (Buf.fmat pooled)
  (⟨min 1 (lengths.length / tpb), tpb⟩,
   match broadcastDiv pooled (lengths.map (fun n => (n : ℚ))) with
   | Except.ok q => (h1.set p.2 (Buf.fmat q), Except.ok p.2)
   | Except.error e => (h1, Except.error e))

/-- Embedded from `max_pool` (source lines 70-82): allocate the
`(maxes, which)` pair when no output is supplied, compute
`num_blocks = max(1, B // threads_per_block)`, launch the max-pool
kernel, and return the pair of buffers. -/
def max_pool (h : Heap) (X : Arr2) (lengths : List Nat)
    (out : Option (Nat × Nat)) (tpb : Nat) : Launch × Heap × (Nat × Nat) :=
  let p := match out with
    | some rr => (h, rr)
    | none =>
      (h ++ [Buf.fmat (Arr2.zeros lengths.length X.width),
             Buf.nmat (List.replicate lengths.length (List.replicate X.width 0))],
       (h.length, h.length + 1))
  let mw := max_pool_kernelFn X lengths
  (⟨max 1 (lengths.length / tpb), tpb⟩,
   (p.1.set p.2.1 (Buf.fmat mw.1)).set p.2.2 (Buf.nmat mw.2), p.2)

/-- Embedded from `backprop_sum_pool` (source lines 85-95): with
`T = lengths.sum()`, allocate a zero `(T, O)` output when none is
supplied, compute `num_blocks = max(1, T // threads_per_block)`, launch
the backward sum-pool kernel, and return the buffer. -/
def backprop_sum_pool (h : Heap) (d_sum : Arr2) (lengths : List Nat)
    (out : Option Nat) (tpb : Nat) : Launch × Heap × Nat :=
  let p := match out with
    | some r => (h, r)
    | none => (h ++ [Buf.fmat (Arr2.zeros lengths.sum d_sum.width)], h.length)
  (⟨max 1 (lengths.sum / tpb), tpb⟩,
   p.1.set p.2 (Buf.fmat (backprop_sum_pool_kernelFn d_sum lengths)), p.2)

/-- Embedded from `backprop_mean_pool` (source lines 98-102): delegate
to `backprop_sum_pool` (so the launch shape is the inner call's), then
apply the in-place `out /= lengths`, which broadcasts `lengths` along
the trailing axis of the `(T, O)` buffer just written by the kernel. -/
def backprop_mean_pool (h : Heap) (d_mean : Arr2) (lengths : List Nat)
    (out : Option Nat) (tpb : Nat) : Launch × Heap × Except PyErr Nat :=
  let inner := backprop_sum_pool h d_mean lengths out tpb
  (inner.1,
   match broadcastDiv (backprop_sum_pool_kernelFn d_mean lengths)
       (lengths.map (fun n => (n : ℚ))) with
   | Except.ok q => (inner.2.1.set inner.2.2 (Buf.fmat q), Except.ok inner.2.2)
   | Except.error e => (inner.2.1, Except.error e))

/-- Embedded from `backprop_max_pool` (source lines 105-115): with
`T = lengths.sum()`, allocate a zero `(T, O)` output when none is
supplied, compute `num_blocks = max(1, T // threads_per_block)`, launch
the backward max-pool kernel, and return the buffer. -/
def backprop_max_pool (h : Heap) (d_maxes : Arr2) (which : List (List Nat))
    (lengths : List Nat) (out : Option Nat) (tpb : Nat) : Launch × Heap × Nat :=
  let p := match out with
    | some r => (h, r)
    | none => (h ++ [Buf.fmat (Arr2.zeros lengths.sum d_maxes.width)], h.length)
  (⟨max 1 (lengths.sum / tpb), tpb⟩,
   p.1.set p.2 (Buf.fmat (backprop_max_pool_kernelFn d_maxes which lengths)), p.2)

/-- Embedded from `hash` (source lines 118-129): with
`T = ids.shape[0]`, allocate a zero `(T, 4)` uint32 output when none is
supplied, compute `num_blocks = max(1, T // threads_per_block)`, launch
the `hash_data` kernel, and return the buffer. -/
def hash (h : HeapU) (ids : List Nat) (seed : Nat) (out : Option Nat)
    (tpb : Nat) : Launch × HeapU × Nat :=
  let p := match out with
    | some r => (h, r)
    | none => (h ++ [List.replicate ids.length (List.replicate 4 0)], h.length)
  (⟨max 1 (ids.length / tpb), tpb⟩,
   p.1.set p.2 (hash_data_kernelFn ids seed), p.2)

/-- Read row `p` of the output buffer a hash call returned: look up the
returned reference in the returned heap and take row `p`. -/
def bufRow (res : Launch × HeapU × Nat) (p : Nat) : Option (List Nat) :=
  (res.2.1[res.2.2]?).bind (fun b => b[p]?)

/-! ### Module initialisation (embedded from the module-level code) -/

/-- The names bound in the module's global scope by the time
`compile_kernels` runs (source lines 1-18): the one symbol imported
from `numpy.testing`, the `re` and `Path` imports, the name `cupy`
(bound to `None` when the backend import fails), and the regex / parse
helpers.  `collections.defaultdict` is never imported. -/
def moduleGlobals : List String :=
  ["assert_allclose", "re", "Path", "cupy", "kernel_re", "name_re",
   "parse_kernels", "compile_kernels", "compile_mmh"]

/-- The kernel dictionary produced by `compile_kernels` (source lines
21-25): with a backend, a plain `dict` keyed by the entry-point names
parsed out of the kernel-source document; without one, the intended
`defaultdict(lambda: None)` fallback, on which every lookup succeeds
with `None`. -/
inductive KernelDict where
  | plain (names : List String)
  | defaulted
deriving DecidableEq

/-- Embedded from `compile_kernels` (source lines 21-25).  The
extraction of entry-point names from the document text is an external
collaborator (spec section 1), so the parsed name set is a parameter.
In the no-backend branch the body evaluates the global name
`defaultdict`, which is absent from `moduleGlobals` (and is not a
builtin), so Python raises a `NameError` there. -/
def compile_kernels (avail : Bool) (parsedNames : List String) :
    Except PyErr KernelDict :=
  if avail then Except.ok (KernelDict.plain parsedNames)
  else if "defaultdict" ∈ moduleGlobals then Except.ok KernelDict.defaulted
  else Except.error (PyErr.nameError "defaultdict")

/-- A `KERNELS[name]` subscript lookup: on a plain `dict` a missing key
raises `KeyError`; on the `defaultdict` fallback every key succeeds. -/
def dictGet (d : KernelDict) (k : String) : Except PyErr Unit :=
  match d with
  | KernelDict.plain names =>
    if k ∈ names then Except.ok () else Except.error (PyErr.keyError k)
  | KernelDict.defaulted => Except.ok ()

/-- The entry-point names looked up at module load, in source order
(source lines 39-43). -/
def requiredNames : List String :=
  ["sum_pool", "max_pool", "maxout", "backprop_sum_pool", "backprop_max_pool"]

/-- Perform the module-level `KERNELS[...]` lookups in order, stopping
at the first missing key, as the sequence of bindings on source lines
39-43 does. -/
def lookupAll : List String → KernelDict → Except PyErr Unit
  | [], _ => Except.ok ()
  | k :: ks, d =>
    match dictGet d k with
    | Except.ok _ => lookupAll ks d
    | Except.error e => Except.error e

/-- Embedded from the module-level initialisation (source lines 33-44):
build `KERNELS` via `compile_kernels`, then bind the five pooling entry
points by dictionary lookup.  `avail` is the Backend Availability Gate
(whether `import cupy` succeeded); `parsedNames` is the entry-point set
the registry extracted from the kernel-source document. -/
def moduleInit (avail : Bool) (parsedNames : List String) : Except PyErr Unit :=
  match compile_kernels avail parsedNames with
  | Except.error e => Except.error e
  | Except.ok K => lookupAll requiredNames K

/-! ### The two hash bindings (embedded from source lines 27-44) -/

/-- A compiled `cupy.RawKernel` handle: the source document it was
compiled from and the entry-point name. -/
structure RawKernelHandle where
  src : String
  entry : String
deriving DecidableEq

/-- The murmur3 kernel-source document `_murmur3.cu` — opaque text
loaded by an external collaborator (source line 36). -/
def MMH_SRC : String := "murmur3 kernel source document"

/-- Embedded from `compile_mmh` (source lines 27-30): `None` without a
backend, otherwise `cupy.RawKernel(src, "hash_data")`. -/
def compile_mmh (avail : Bool) (src : String) : Option RawKernelHandle :=
  if avail then some ⟨src, "hash_data"⟩ else none

/-- Embedded from source line 37: the registry binding
`KERNELS["hash"] = compile_mmh(MMH_SRC)`. -/
def KERNELS_hash (avail : Bool) : Option RawKernelHandle :=
  compile_mmh avail MMH_SRC

/-- Embedded from source line 44: the module-level binding
`hash_data_kernel = compile_mmh(MMH_SRC)`. -/
def hash_data_kernel (avail : Bool) : Option RawKernelHandle :=
  compile_mmh avail MMH_SRC

/-- Denotation of invoking a compiled handle on a key batch: the
`hash_data` entry point of the murmur3 document denotes the
spec-modelled per-key hash map (`hash_data_kernelFn`); the denotation
is determined by the handle's `(src, entry)` pair. -/
def invokeHash (k : RawKernelHandle) (ids : List Nat) (seed : Nat) :
    List (List Nat) :=
  if k.src = MMH_SRC ∧ k.entry = "hash_data" then hash_data_kernelFn ids seed
  else []

/-! ### Concrete inputs used by the claim theorems -/

/-- A 3-row, 2-column flat batch whose only non-zero entry sits at row
0, feature 1. -/
def Xc1 : Arr2 := ⟨[[0, 1], [0, 0], [0, 0]], 2⟩

/-- Two items: the first owns one row, the second owns two. -/
def Lc1 : List Nat := [1, 2]

/-- A `(2, 2)` all-ones incoming gradient. -/
def Dc4 : Arr2 := ⟨[[1, 1], [1, 1]], 2⟩

/-- The 19-row, width-5 all-ones flat batch of the module's own
`test_sum_pool` (source lines 132-137). -/
def onesX : Arr2 := ⟨List.replicate 19 (List.replicate 5 1), 5⟩

/-- The test lengths `[5, 5, 3, 6]` (source line 135). -/
def testLengths : List Nat := [5, 5, 3, 6]

/-! ### Helper lemmas -/

theorem vadd_sum (a : List ℚ) : ∀ b : List ℚ, a.length = b.length →
    (vadd a b).sum = a.sum + b.sum := by
  induction a with
  | nil =>
    intro b h
    cases b with
    | nil => simp [vadd]
    | cons y ys => simp at h
  | cons x xs ih =>
    intro b h
    cases b with
    | nil => simp at h
    | cons y ys =>
      have hl : xs.length = ys.length := by simpa using h
      simp only [vadd, List.zipWith_cons_cons, List.sum_cons]
      have : List.zipWith (· + ·) xs ys = vadd xs ys := rfl
      rw [this, ih ys hl]
      ring

theorem foldl_vadd (item : List (List ℚ)) : ∀ acc : List ℚ,
    (∀ r ∈ item, r.length = acc.length) →
    (item.foldl vadd acc).sum = acc.sum + matSum item
    ∧ (item.foldl vadd acc).length = acc.length := by
  induction item with
  | nil =>
    intro acc _
    simp [matSum]
  | cons r rs ih =>
    intro acc hw
    have hr : r.length = acc.length := hw r (List.mem_cons_self r rs)
    have hacc : (vadd acc r).length = acc.length := by
      simp only [vadd, List.length_zipWith]
      omega
    obtain ⟨s1, l1⟩ := ih (vadd acc r)
      (fun q hq => by rw [hacc]; exact hw q (List.mem_cons_of_mem r hq))
    refine ⟨?_, ?_⟩
    · simp only [List.foldl_cons]
      rw [s1, vadd_sum acc r hr.symm]
      simp only [matSum, List.map_cons, List.sum_cons]
      show acc.sum + r.sum + (rs.map List.sum).sum
          = acc.sum + (r.sum + (rs.map List.sum).sum)
      ring
    · simp only [List.foldl_cons]
      rw [l1, hacc]

theorem chunkBy_subset : ∀ (ls : List Nat) (rows : List (List ℚ)),
    ∀ c ∈ chunkBy ls rows, ∀ r ∈ c, r ∈ rows := by
  intro ls
  induction ls with
  | nil =>
    intro rows c hc
    simp [chunkBy] at hc
  | cons n ns ih =>
    intro rows c hc r hr
    simp only [chunkBy, List.mem_cons] at hc
    rcases hc with rfl | hc
    · exact List.take_subset n rows hr
    · exact List.drop_subset n rows (ih (rows.drop n) c hc r hr)

theorem chunkBy_matSum : ∀ (ls : List Nat) (rows : List (List ℚ)),
    ls.sum = rows.length →
    ((chunkBy ls rows).map (fun c => matSum c)).sum = matSum rows := by
  intro ls
  induction ls with
  | nil =>
    intro rows h
    cases rows with
    | nil => simp [chunkBy, matSum]
    | cons r rs => simp at h
  | cons n ns ih =>
    intro rows h
    simp only [List.sum_cons] at h
    have hdrop : ns.sum = (rows.drop n).length := by
      simp only [List.length_drop]
      omega
    simp only [chunkBy, List.map_cons, List.sum_cons]
    rw [ih (rows.drop n) hdrop]
    have hsplit : matSum (rows.take n ++ rows.drop n) = matSum rows := by
      rw [List.take_append_drop]
    calc matSum (rows.take n) + matSum (rows.drop n)
        = matSum (rows.take n ++ rows.drop n) := by
          simp [matSum]
      _ = matSum rows := hsplit

theorem lookupAll_error : ∀ ks ns : List String, (∃ k ∈ ks, k ∉ ns) →
    ∃ e, lookupAll ks (KernelDict.plain ns) = Except.error e := by
  intro ks
  induction ks with
  | nil =>
    intro ns h
    simp at h
  | cons k kt ih =>
    intro ns h
    by_cases hk : k ∈ ns
    · have step : lookupAll (k :: kt) (KernelDict.plain ns)
          = lookupAll kt (KernelDict.plain ns) := by
        simp [lookupAll, dictGet, hk]
      rw [step]
      apply ih
      rcases h with ⟨q, hq, hqn⟩
      rcases List.mem_cons.mp hq with rfl | hq2
      · exact absurd hk hqn
      · exact ⟨q, hq2, hqn⟩
    · exact ⟨PyErr.keyError k, by simp [lookupAll, dictGet, hk]⟩

theorem set_append_length {α : Type} (l : List α) (a b : α) :
    (l ++ [a]).set l.length b = l ++ [b] := by
  induction l with
  | nil => rfl
  | cons x xs ih =>
    simp only [List.cons_append, List.length_cons, List.set_cons_succ, ih]

theorem getElem_set_self {α : Type} : ∀ (l : List α) (i : Nat) (v : α),
    i < l.length → (l.set i v)[i]? = some v := by
  intro l
  induction l with
  | nil =>
    intro i v h
    simp at h
  | cons x xs ih =>
    intro i v h
    cases i with
    | zero => simp
    | succ n =>
      simpa using ih n v (by simpa using h)

theorem hash_bufRow (h : HeapU) (ids : List Nat) (seed tpb p : Nat) :
    bufRow (hash h ids seed none tpb) p = (ids[p]?).map (fun k => mmh k seed) := by
  simp only [bufRow, hash]
  rw [set_append_length]
  simp [hash_data_kernelFn]

/-! ### Claim theorems -/

/-- C1: the claim says `meanPool(X, Lengths)` returns the sum-pool
result with row `i` divided by `Lengths[i]`, the divisor broadcast
across the O features of the row.  The code's `out /= lengths` instead
numpy-broadcasts `lengths` along the trailing (feature) axis: at the
flat batch `[[0,1],[0,0],[0,0]]` with `Lengths = [1, 2]` the sum-pool
result is `[[0,1],[0,0]]`, so the claim requires mean row 0 to be
`[0, 1/1] = [0, 1]`, but `mean_pool` produces `[[0, 1/2], [0, 0]]` —
entry `(0,1)` was divided by `Lengths[1] = 2`, not `Lengths[0] = 1`
(and for feature counts different from the batch count the statement
raises a broadcasting `ValueError` instead of returning at all). -/
theorem mean_pool_divides_by_trailing_axis :
    (mean_pool [] Xc1 Lc1 none 128).2
        = ([Buf.fmat ⟨[[0, 1/2], [0, 0]], 2⟩], Except.ok 0)
    ∧ (sum_pool_kernelFn Xc1 Lc1).rows = [[0, 1], [0, 0]]
    ∧ ([[(0 : ℚ), 1/2], [0, 0]] ≠ [[(0 : ℚ), 1/1], [0, 0]])
    ∧ (mean_pool [] ⟨[[1, 2, 3]], 3⟩ [1, 0] none 128).2.2
        = Except.error (PyErr.valueError "operands could not be broadcast together") := by
  refine ⟨?_, ?_, ?_, ?_⟩ <;>
    norm_num [mean_pool, sum_pool_kernelFn, chunkBy, vadd, Xc1, Lc1,
      broadcastDiv, Arr2.zeros, List.replicate, List.zipWith]

/-- C2: the launch planner computes `num_blocks` as
`min(1, B // threads_per_block)` for forward sum-pool and mean-pool,
`max(1, B // threads_per_block)` for forward max-pool, and
`max(1, T // threads_per_block)` for backward sum-pool, backward
mean-pool (whose launch is the delegated backward sum-pool launch),
backward max-pool, and hash (with `T` the number of keys), always with
`threads_per_block` lanes per group. -/
theorem launch_shape_formulas :
    ∀ (h : Heap) (hu : HeapU) (X d_sum d_mean d_maxes : Arr2)
      (which : List (List Nat)) (lengths ids : List Nat) (seed tpb : Nat)
      (out : Option Nat) (outp : Option (Nat × Nat)),
      (sum_pool h X lengths out tpb).1 = ⟨min 1 (lengths.length / tpb), tpb⟩
    ∧ (mean_pool h X lengths out tpb).1 = ⟨min 1 (lengths.length / tpb), tpb⟩
    ∧ (max_pool h X lengths outp tpb).1 = ⟨max 1 (lengths.length / tpb), tpb⟩
    ∧ (backprop_sum_pool h d_sum lengths out tpb).1 = ⟨max 1 (lengths.sum / tpb), tpb⟩
    ∧ (backprop_mean_pool h d_mean lengths out tpb).1 = ⟨max 1 (lengths.sum / tpb), tpb⟩
    ∧ (backprop_max_pool h d_maxes which lengths out tpb).1 = ⟨max 1 (lengths.sum / tpb), tpb⟩
    ∧ (hash hu ids seed out tpb).1 = ⟨max 1 (ids.length / tpb), tpb⟩ := by
  intro h hu X d_sum d_mean d_maxes which lengths ids seed tpb out outp
  exact ⟨rfl, rfl, rfl, rfl, rfl, rfl, rfl⟩

/-- C3 counterexample: the claim says the forward sum/mean-pool group
count is 0 only when `B = 0` and that every `B > 0` dispatches a single
group; but with `B = 1` and the default group size 128 the code
computes `min(1, 1 // 128) = 0` groups. -/
theorem sum_pool_zero_blocks_small_batch :
    (sum_pool [] ⟨[[0]], 1⟩ [1] none 128).1.numBlocks = 0
    ∧ ([1] : List Nat).length ≠ 0 := by
  exact ⟨rfl, by decide⟩

/-- C3 amended: for forward sum-pool and mean-pool the computed group
count is always in `{0, 1}`, and it is 0 exactly when
`B // groupSize = 0` — that is, for every batch count smaller than the
group size (not only for `B = 0`); a single group is dispatched exactly
when `B ≥ groupSize > 0`. -/
theorem forward_pool_numBlocks :
    ∀ (h : Heap) (X : Arr2) (lengths : List Nat) (out : Option Nat) (tpb : Nat),
      (sum_pool h X lengths out tpb).1.numBlocks ≤ 1
    ∧ ((sum_pool h X lengths out tpb).1.numBlocks = 0 ↔ lengths.length / tpb = 0)
    ∧ (mean_pool h X lengths out tpb).1.numBlocks ≤ 1
    ∧ ((mean_pool h X lengths out tpb).1.numBlocks = 0 ↔ lengths.length / tpb = 0) := by
  intro h X lengths out tpb
  refine ⟨?_, ?_, ?_, ?_⟩
  · show min 1 (lengths.length / tpb) ≤ 1
    omega
  · show min 1 (lengths.length / tpb) = 0 ↔ lengths.length / tpb = 0
    omega
  · show min 1 (lengths.length / tpb) ≤ 1
    omega
  · show min 1 (lengths.length / tpb) = 0 ↔ lengths.length / tpb = 0
    omega

/-- C4: the claim says `backpropMeanPool(dMean, Lengths)` equals the
backward sum-pool output with every row owned by item `i` divided by
`Lengths[i]`.  The code's `out /= lengths` instead broadcasts `lengths`
along the trailing (feature) axis of the `(T, O)` buffer: with
`dMean = [[1,1],[1,1]]` and `Lengths = [1, 2]` the backward sum-pool
output is three rows of `[1, 1]`, so the claim requires
`[[1,1],[1/2,1/2],[1/2,1/2]]`, but the code produces
`[[1,1/2],[1,1/2],[1,1/2]]` — every entry of feature `j` was divided by
`Lengths[j]` regardless of row ownership. -/
theorem backprop_mean_pool_divides_by_trailing_axis :
    (backprop_mean_pool [] Dc4 Lc1 none 128).2
        = ([Buf.fmat ⟨[[1, 1/2], [1, 1/2], [1, 1/2]], 2⟩], Except.ok 0)
    ∧ (backprop_sum_pool_kernelFn Dc4 Lc1).rows = [[1, 1], [1, 1], [1, 1]]
    ∧ ((⟨[[1, 1/2], [1, 1/2], [1, 1/2]], 2⟩ : Arr2)
        ≠ (⟨[[1, 1], [1/2, 1/2], [1/2, 1/2]], 2⟩ : Arr2)) := by
  refine ⟨?_, ?_, ?_⟩ <;>
    norm_num [backprop_mean_pool, backprop_sum_pool, backprop_sum_pool_kernelFn,
      Dc4, Lc1, broadcastDiv, Arr2.zeros, List.replicate, List.zipWith, Arr2.mk.injEq]

/-- C5: the claim says that without a parallel backend the module
still loads into an explicit "unavailable" state and every operation
returns the unavailable signal without raising.  In the code the
no-backend branch of `compile_kernels` evaluates the name
`defaultdict`, which is never imported, so module initialisation raises
a `NameError` and the module fails to load at all. -/
theorem module_load_raises_nameError_without_backend :
    ∀ parsedNames : List String,
      moduleInit false parsedNames = Except.error (PyErr.nameError "defaultdict") := by
  intro parsedNames
  rfl

/-- C9: the registry binding `KERNELS["hash"]` (source line 37) and the
module-level handle `hash_data_kernel` (source line 44) are both
`compile_mmh(MMH_SRC)`, hence they are the same handle in every backend
state, and invoking the hash through either produces identical
outputs for every key batch and seed. -/
theorem hash_two_bindings_equal :
    ∀ (avail : Bool) (ids : List Nat) (seed : Nat),
      KERNELS_hash avail = hash_data_kernel avail
    ∧ (KERNELS_hash avail).map (fun k => invokeHash k ids seed)
        = (hash_data_kernel avail).map (fun k => invokeHash k ids seed) := by
  intro avail ids seed
  exact ⟨rfl, rfl⟩

/-- C6: sum conservation — for every flat batch and length vector with
`sum(Lengths)` equal to the row count, the element-wise total of the
sum-pool output equals the element-wise total of the input; and
`sum_pool` writes exactly the kernel result into its fresh buffer, so
for the module's own 19-by-5 all-ones test case with lengths
`[5, 5, 3, 6]` and the default group size the pooled total is 95, the
total of the input. -/
theorem sum_pool_conservation :
    (∀ (X : Arr2) (lengths : List Nat), X.wf → lengths.sum = X.rows.length →
        matSum (sum_pool_kernelFn X lengths).rows = matSum X.rows)
    ∧ (sum_pool [] onesX testLengths none 128).2.1
        = [Buf.fmat (sum_pool_kernelFn onesX testLengths)]
    ∧ matSum (sum_pool_kernelFn onesX testLengths).rows = 95
    ∧ matSum onesX.rows = 95 := by
  refine ⟨?_, rfl, ?_, ?_⟩
  · intro X lengths hwf hlen
    show matSum ((chunkBy lengths X.rows).map
        (fun item => item.foldl vadd (List.replicate X.width 0))) = matSum X.rows
    have hcong : ∀ c ∈ chunkBy lengths X.rows,
        (c.foldl vadd (List.replicate X.width 0)).sum = matSum c := by
      intro c hc
      have hlenr : ∀ r ∈ c, r.length = (List.replicate X.width (0 : ℚ)).length := by
        intro r hr
        rw [List.length_replicate]
        exact hwf r (chunkBy_subset lengths X.rows c hc r hr)
      have := (foldl_vadd c (List.replicate X.width 0) hlenr).1
      rw [this]
      simp
    calc matSum ((chunkBy lengths X.rows).map
            (fun item => item.foldl vadd (List.replicate X.width 0)))
        = ((chunkBy lengths X.rows).map
            (fun c => (c.foldl vadd (List.replicate X.width 0)).sum)).sum := by
          simp [matSum, Function.comp_def]
      _ = ((chunkBy lengths X.rows).map (fun c => matSum c)).sum := by
          rw [List.map_congr_left hcong]
      _ = matSum X.rows := chunkBy_matSum lengths X.rows hlen
  · norm_num [sum_pool_kernelFn, chunkBy, vadd, onesX, testLengths, matSum,
      List.replicate, List.zipWith]
  · norm_num [onesX, matSum, List.replicate]

/-- C6 witness: the conservation law instantiated at the module's own
test input — 19 all-ones rows of width 5, lengths `[5, 5, 3, 6]`. -/
theorem sum_pool_conservation_witness :
    matSum (sum_pool_kernelFn onesX testLengths).rows = matSum onesX.rows :=
  sum_pool_conservation.1 onesX testLengths (by decide) (by decide)

/-- C7: if any of the expected entry-point names `sum_pool`,
`max_pool`, `maxout`, `backprop_sum_pool`, `backprop_max_pool` is
absent from the set of entry points parsed out of the kernel-source
document, module initialisation fails with an error (a `KeyError` on
the registry lookup) at process start, before any pooling or hash call
can be served. -/
theorem missing_entry_point_fails_init :
    ∀ (parsedNames : List String) (n : String),
      n ∈ requiredNames → n ∉ parsedNames →
      ∃ e, moduleInit true parsedNames = Except.error e := by
  intro parsedNames n hn hnn
  show ∃ e, lookupAll requiredNames (KernelDict.plain parsedNames) = Except.error e
  exact lookupAll_error requiredNames parsedNames ⟨n, hn, hnn⟩

/-- C7 witness: with only `sum_pool` and `max_pool` discovered, module
initialisation errors (on the missing `maxout`). -/
theorem missing_entry_point_fails_init_witness :
    ∃ e, moduleInit true ["sum_pool", "max_pool"] = Except.error e :=
  missing_entry_point_fails_init ["sum_pool", "max_pool"] "maxout"
    (by decide) (by decide)

/-- C8: the hash is deterministic — for a fixed seed, hashing the same
key in two separate calls, at two different batch positions, and under
two different group sizes yields the identical four 32-bit words
`mmh k seed` in both output buffers. -/
theorem hash_deterministic :
    ∀ (h1 h2 : HeapU) (ids1 ids2 : List Nat) (seed tpb1 tpb2 p1 p2 k : Nat),
      ids1[p1]? = some k → ids2[p2]? = some k →
      bufRow (hash h1 ids1 seed none tpb1) p1 = some (mmh k seed)
      ∧ bufRow (hash h2 ids2 seed none tpb2) p2 = some (mmh k seed) := by
  intro h1 h2 ids1 ids2 seed tpb1 tpb2 p1 p2 k hk1 hk2
  constructor
  · rw [hash_bufRow, hk1]
    rfl
  · rw [hash_bufRow, hk2]
    rfl

/-- C8 witness: the key 3 hashed at position 1 of one batch with group
size 128 and at position 0 of another batch with group size 1 yields
the same 4-tuple. -/
theorem hash_deterministic_witness :
    bufRow (hash [] [7, 3] 42 none 128) 1 = some (mmh 3 42)
    ∧ bufRow (hash [[[0, 0, 0, 0]]] [3] 42 none 1) 0 = some (mmh 3 42) :=
  hash_deterministic [] [[[0, 0, 0, 0]]] [7, 3] [3] 42 128 1 1 0 3
    (by decide) (by decide)

/-- C10: frame effect — when the caller supplies an output buffer
reference, every public operation returns that very reference and
allocates no fresh buffer (the heap keeps its size), and for
`mean_pool` and `backprop_mean_pool` the caller's buffer holds the
result of the final in-place division when the call returns
successfully. -/
theorem caller_buffer_identity :
    ∀ (h : Heap) (hu : HeapU) (X d_sum d_mean d_maxes : Arr2)
      (which : List (List Nat)) (lengths ids : List Nat) (seed tpb r ru : Nat)
      (rr : Nat × Nat) (q qb : Arr2),
      r < h.length →
      broadcastDiv (sum_pool_kernelFn X lengths) (lengths.map (fun n => (n : ℚ)))
        = Except.ok q →
      broadcastDiv (backprop_sum_pool_kernelFn d_mean lengths)
          (lengths.map (fun n => (n : ℚ))) = Except.ok qb →
      ((sum_pool h X lengths (some r) tpb).2.2 = r
        ∧ (sum_pool h X lengths (some r) tpb).2.1.length = h.length)
    ∧ ((mean_pool h X lengths (some r) tpb).2.2 = Except.ok r
        ∧ (mean_pool h X lengths (some r) tpb).2.1.length = h.length
        ∧ (mean_pool h X lengths (some r) tpb).2.1[r]? = some (Buf.fmat q))
    ∧ ((max_pool h X lengths (some rr) tpb).2.2 = rr
        ∧ (max_pool h X lengths (some rr) tpb).2.1.length = h.length)
    ∧ ((backprop_sum_pool h d_sum lengths (some r) tpb).2.2 = r
        ∧ (backprop_sum_pool h d_sum lengths (some r) tpb).2.1.length = h.length)
    ∧ ((backprop_mean_pool h d_mean lengths (some r) tpb).2.2 = Except.ok r
        ∧ (backprop_mean_pool h d_mean lengths (some r) tpb).2.1.length = h.length
        ∧ (backprop_mean_pool h d_mean lengths (some r) tpb).2.1[r]?
            = some (Buf.fmat qb))
    ∧ ((backprop_max_pool h d_maxes which lengths (some r) tpb).2.2 = r
        ∧ (backprop_max_pool h d_maxes which lengths (some r) tpb).2.1.length
            = h.length)
    ∧ ((hash hu ids seed (some ru) tpb).2.2 = ru
        ∧ (hash hu ids seed (some ru) tpb).2.1.length = hu.length) := by
  intro h hu X d_sum d_mean d_maxes which lengths ids seed tpb r ru rr q qb
    hr hq hqb
  refine ⟨⟨rfl, ?_⟩, ⟨?_, ?_, ?_⟩, ⟨rfl, ?_⟩, ⟨rfl, ?_⟩, ⟨?_, ?_, ?_⟩,
    ⟨rfl, ?_⟩, rfl, ?_⟩
  · simp [sum_pool]
  · simp only [mean_pool]
    rw [hq]
  · simp only [mean_pool]
    rw [hq]
    simp
  · simp only [mean_pool]
    rw [hq]
    exact getElem_set_self _ r _ (by simpa using hr)
  · simp [max_pool]
  · simp [backprop_sum_pool]
  · simp only [backprop_mean_pool]
    rw [hqb]
    simp [backprop_sum_pool]
  · simp only [backprop_mean_pool]
    rw [hqb]
    simp [backprop_sum_pool]
  · simp only [backprop_mean_pool]
    rw [hqb]
    exact getElem_set_self _ r _ (by simpa [backprop_sum_pool] using hr)
  · simp [backprop_max_pool]
  · simp [hash]

/-- A one-row, two-feature flat batch used to instantiate the frame
theorem. -/
def Xw : Arr2 := ⟨[[2, 4]], 2⟩

/-- C10 witness: the frame theorem instantiated at a singleton heap, a
supplied buffer reference 0, batch `Xw` and lengths `[1]` (so the
broadcast division succeeds, dividing by 1). -/
theorem caller_buffer_identity_witness :
    (mean_pool [Buf.fmat (Arr2.zeros 1 2)] Xw [1] (some 0) 128).2.2 = Except.ok 0
    ∧ (mean_pool [Buf.fmat (Arr2.zeros 1 2)] Xw [1] (some 0) 128).2.1.length = 1
    ∧ (mean_pool [Buf.fmat (Arr2.zeros 1 2)] Xw [1] (some 0) 128).2.1[0]?
        = some (Buf.fmat ⟨[[2, 4]], 2⟩) := by
  have := caller_buffer_identity [Buf.fmat (Arr2.zeros 1 2)] [[[0, 0, 0, 0]]]
    Xw Xw Xw Xw [[0, 0]] [1] [9] 7 128 0 0 (0, 0) ⟨[[2, 4]], 2⟩ ⟨[[2, 4]], 2⟩
    (by decide)
    (by simp [broadcastDiv, sum_pool_kernelFn, chunkBy, vadd, Xw,
      List.replicate, List.zipWith, List.headI])
    (by simp [broadcastDiv, backprop_sum_pool_kernelFn, Xw,
      List.replicate, List.zipWith, List.headI])
  exact this.2.1

end Thinc
